import Mathlib

/-!
# Verification of the saltrouteDataEnrichment pipeline

Shallow embedding of the repository's core components:

* `src/IdNumbers/sa_id_mask_solver.py` — century-pivot date decoding and
  gender-block predicate;
* `src/OpenAI_Prediction/enrich_and_update_master_items.py` — the retry
  envelope (`get_person_prediction_async`), the chunked bounded-concurrency
  scheduler, the `MERGE`-based upsert writers, and the page-fetch /
  watermark driver loop;
* `src/BirthDay Backfill/correct_birthdates.py` — the transactional
  birth-date correction pass with dry-run rollback and ordered CSV export.

Machine integers are modelled as `Nat`; Python/SQL `NULL`-able fields as
`Option`; fallible paths return tagged results, mirroring the source which
catches exceptions and converts them to tagged dictionaries / rollbacks.
-/

namespace SaltRoute

/-! ## Calendar arithmetic

Python's `datetime(year, month, day)` constructor and SQL Server's `DATE`
type both implement the proleptic Gregorian calendar with years 1–9999:
a month outside 1–12 or a day outside the month's length raises
`ValueError` (Python) / is unrepresentable (SQL).  `isValidDate` is that
validity predicate. -/

def isLeapYear (y : Nat) : Bool :=
  (y % 4 == 0 && y % 100 != 0) || (y % 400 == 0)

def daysInMonth (y m : Nat) : Nat :=
  if m == 2 then (if isLeapYear y then 29 else 28)
  else if m == 4 || m == 6 || m == 9 || m == 11 then 30
  else 31

def isValidDate (y m d : Nat) : Bool :=
  decide (1 ≤ y) && decide (y ≤ 9999) && decide (1 ≤ m) && decide (m ≤ 12) &&
    decide (1 ≤ d) && decide (d ≤ daysInMonth y m)

/-! ## Id mask solver (`src/IdNumbers/sa_id_mask_solver.py`) -/

/-- The century chosen by `valid_date`'s pivot expression
`int(yy) + (1900 if int(yy) > int(datetime.now().strftime("%y")) else 2000)`:
`nowYY` is the current year modulo 100, `yy` the two leading ID digits. -/
def chosenCentury (nowYY yy : Nat) : Nat :=
  if yy > nowYY then 1900 else 2000

/-- Model of `valid_date(yy, mm, dd)` from `sa_id_mask_solver.py`: pick the century by
the pivot rule, then accept iff `datetime(year, mm, dd)` does not raise.
Inputs are the parsed digit values of the mask's substrings. -/
def valid_date (nowYY yy mm dd : Nat) : Bool :=
  isValidDate (yy + chosenCentury nowYY yy) mm dd

/-- Fold a digit list to the number it denotes, as Python `int` does on a
digit string. -/
def digitsToNat (s : List Char) : Nat :=
  s.foldl (fun a c => a * 10 + (c.toNat - 48)) 0

/-- Model of `int(id13[6:10])` — digits 7–10 of the candidate ID as a 4-digit number. -/
def genderBlock (id13 : String) : Nat :=
  digitsToNat ((id13.toList.drop 6).take 4)

/-- Python's `str.upper()` restricted to its ASCII behaviour (the `GENDER`
configuration values are ASCII letters). -/
def strUpper (s : String) : String :=
  String.mk (s.data.map Char.toUpper)

/-- Model of `gender_ok(id13)` from `sa_id_mask_solver.py`, with the module-level
`GENDER` configuration passed explicitly. -/
def gender_ok (gender : String) (id13 : String) : Bool :=
  if strUpper gender == "M" then decide (5000 ≤ genderBlock id13)
  else if strUpper gender == "F" then decide (genderBlock id13 < 5000)
  else true

/-! ### Theorems for the mask solver claims -/

/-- Claim C6: For every 6-digit block `YYMMDD`, the decoder selects century 1900
exactly when `YY` is strictly greater than the current year modulo 100, and
century 2000 when `YY ≤` the pivot (so equality with the pivot selects 2000);
a block that is not a valid calendar date under the chosen century is
rejected (`valid_date` returns `false`, it is a total function and never
raises), in particular any month-13 block is rejected. -/
theorem valid_date_century_pivot (nowYY yy mm dd : Nat) :
    (yy > nowYY → valid_date nowYY yy mm dd = isValidDate (yy + 1900) mm dd) ∧
    (yy ≤ nowYY → valid_date nowYY yy mm dd = isValidDate (yy + 2000) mm dd) ∧
    (valid_date nowYY nowYY mm dd = isValidDate (nowYY + 2000) mm dd) ∧
    (chosenCentury nowYY yy = 1900 ↔ yy > nowYY) ∧
    (isValidDate (yy + chosenCentury nowYY yy) mm dd = false →
      valid_date nowYY yy mm dd = false) ∧
    (valid_date nowYY yy 13 dd = false) := by
  refine ⟨?_, ?_, ?_, ?_, ?_, ?_⟩
  · intro h
    simp [valid_date, chosenCentury, h]
  · intro h
    simp [valid_date, chosenCentury, Nat.not_lt.mpr h]
  · simp [valid_date, chosenCentury]
  · constructor
    · intro h
      by_contra hc
      simp [chosenCentury, hc] at h
    · intro h; simp [chosenCentury, h]
  · intro h; exact h
  · simp [valid_date, isValidDate]

/-- Witness for the century-pivot theorem: with the spec's end-to-end example
(current year 2025, block `970420`), `YY = 97 > 25` selects 1900 and the date
1997-04-20 is accepted; `YY = 25` (the pivot itself) selects 2000; and the
spec's invalid block `023099` is rejected. -/
theorem valid_date_century_pivot_witness :
    (97 > 25 → valid_date 25 97 4 20 = isValidDate (97 + 1900) 4 20) ∧
    valid_date 25 97 4 20 = true ∧
    valid_date 25 25 12 31 = isValidDate (25 + 2000) 12 31 ∧
    valid_date 25 2 30 99 = false := by
  refine ⟨(valid_date_century_pivot 25 97 4 20).1, by decide, ?_, by decide⟩
  exact (valid_date_century_pivot 25 25 12 31).2.1 (le_refl 25)

/-- Claim C10: `gender_ok` partitions the 4-digit block of ID digits 7–10:
with `GENDER = 'M'` it accepts exactly the blocks `≥ 5000` (the boundary
block 5000 is male-coded), with `GENDER = 'F'` exactly the blocks `< 5000`,
with any other setting it accepts every block, and for every candidate ID
exactly one of the `'M'` and `'F'` predicates holds. -/
theorem gender_ok_partition (id13 : String) (g : String) :
    (gender_ok "M" id13 = true ↔ 5000 ≤ genderBlock id13) ∧
    (gender_ok "F" id13 = true ↔ genderBlock id13 < 5000) ∧
    (strUpper g ≠ "M" → strUpper g ≠ "F" → gender_ok g id13 = true) ∧
    (gender_ok "M" id13 = !(gender_ok "F" id13)) := by
  have hMu : strUpper "M" = "M" := by decide
  have hFu : strUpper "F" = "F" := by decide
  have hM : gender_ok "M" id13 = decide (5000 ≤ genderBlock id13) := by
    simp [gender_ok, hMu]
  have hF : gender_ok "F" id13 = decide (genderBlock id13 < 5000) := by
    simp [gender_ok, hFu]
  refine ⟨by simp [hM], by simp [hF], ?_, ?_⟩
  · intro hm hf
    simp [gender_ok, hm, hf]
  · rw [hM, hF]
    rcases Nat.lt_or_ge (genderBlock id13) 5000 with h | h
    · simp [h, Nat.not_le.mpr h]
    · simp [h, Nat.not_lt.mpr h]

/-- Witness for the gender-block theorem at the spec's example: block `1234`
(from ID `9704201234083`) is female-coded, block `5000` is male-coded, and an
unknown setting accepts both. -/
theorem gender_ok_partition_witness :
    gender_ok "F" "9704201234083" = true ∧
    gender_ok "M" "9704205000083" = true ∧
    gender_ok "u" "9704201234083" = true := by
  refine ⟨?_, ?_, ?_⟩
  · exact (gender_ok_partition "9704201234083" "u").2.1.mpr (by decide)
  · exact (gender_ok_partition "9704205000083" "u").1.mpr (by decide)
  · exact (gender_ok_partition "9704201234083" "u").2.2.1 (by decide) (by decide)

/-! ## Retry envelope — `get_person_prediction_async`
(`src/OpenAI_Prediction/enrich_and_update_master_items.py`, lines 50–117)

The outcome of one OpenAI API attempt is an oracle `call : Nat → AttemptOutcome`
indexed by the 0-based attempt number.  The function returns the result
dictionary together with the trace of `asyncio.sleep` durations it performed
(suspending only the calling task) and the number of outbound API calls made. -/

/-- The parsed `prediction_data` dictionary: the driver later reads the
`gender` and `language` keys with `dict.get`, so they are `Option`s. -/
structure Prediction where
  gender : Option String
  language : Option String
deriving DecidableEq, Repr

/-- Outcome of a single `async_client.responses.create` attempt:
a parsed prediction, a response with missing output/content
(line 96), a `json.JSONDecodeError` (line 103), or any other exception
(line 109). -/
inductive AttemptOutcome
  | ok (pred : Prediction)
  | badStructure
  | jsonError (msg : String)
  | apiError (msg : String)
deriving DecidableEq, Repr

/-- The `error_msg` string built for each failing branch of the source. -/
def errorMsg : AttemptOutcome → String
  | .ok _ => ""
  | .badStructure => "Unexpected response structure from OpenAI API."
  | .jsonError m => "JSONDecodeError: " ++ m
  | .apiError m => "API Error: " ++ m

/-- Whether an attempt outcome is one of the three failure branches. -/
def AttemptOutcome.isFail : AttemptOutcome → Bool
  | .ok _ => false
  | _ => true

/-- The result dictionary: always has `item_id`, plus exactly one of the
`prediction` / `error` keys (modelled as `Option` fields). -/
structure PredResult where
  item_id : Nat
  prediction : Option Prediction
  error : Option String
deriving DecidableEq, Repr

def RETRY_ATTEMPTS : Nat := 3
def RETRY_DELAY_SECONDS : Nat := 5

/-- The `for attempt in range(RETRY_ATTEMPTS)` loop body, from 0-based index
`attempt` with `remaining` iterations left.  Returns the result, the list of
sleep durations (`RETRY_DELAY_SECONDS * (attempt + 1)` before each new
attempt, line 116 — the sleep is skipped when a branch `return`s), and the
number of API calls made.  The `remaining = 0` case is the fall-through
`return` after the loop (line 117), unreachable when the loop starts with
`remaining = RETRY_ATTEMPTS`. -/
def retryAux (call : Nat → AttemptOutcome) (attempts delay itemId : Nat) :
    Nat → Nat → PredResult × List Nat × Nat
  | _, 0 => (⟨itemId, none, some "All retry attempts failed."⟩, [], 0)
  | attempt, remaining + 1 =>
    match call attempt with
    | .ok p => (⟨itemId, some p, none⟩, [], 1)
    | f =>
      if attempt < attempts - 1 then
        let rest := retryAux call attempts delay itemId (attempt + 1) remaining
        (rest.1, delay * (attempt + 1) :: rest.2.1, rest.2.2 + 1)
      else
        (⟨itemId, none, some (errorMsg f)⟩, [], 1)

/-- Model of `get_person_prediction_async(first_name, last_name, item_id)`.
`clientInit` models whether the module-level `async_client` initialized;
`call` is the oracle for each attempt's API outcome.  Python's
`not first_name` is truth-testing of a `str`, i.e. emptiness. -/
def get_person_prediction_async (clientInit : Bool) (call : Nat → AttemptOutcome)
    (first_name last_name : String) (item_id : Nat) : PredResult × List Nat × Nat :=
  if !clientInit then (⟨item_id, none, some "OpenAI client not initialized."⟩, [], 0)
  else if first_name = "" || last_name = "" then
    (⟨item_id, none, some "Missing first name or last name."⟩, [], 0)
  else retryAux call RETRY_ATTEMPTS RETRY_DELAY_SECONDS item_id 0 RETRY_ATTEMPTS

/-- A result dictionary holds exactly one of the `prediction` / `error` keys. -/
def PredResult.exactlyOne (r : PredResult) : Prop :=
  (r.prediction.isSome ∧ r.error = none) ∨ (r.prediction = none ∧ r.error.isSome)

lemma retryAux_item_id_exactlyOne (call : Nat → AttemptOutcome)
    (attempts delay itemId : Nat) :
    ∀ remaining attempt,
      (retryAux call attempts delay itemId attempt remaining).1.item_id = itemId ∧
      (retryAux call attempts delay itemId attempt remaining).1.exactlyOne := by
  intro remaining
  induction remaining with
  | zero => intro attempt; exact ⟨rfl, Or.inr ⟨rfl, rfl⟩⟩
  | succ n ih =>
    intro attempt
    cases hc : call attempt with
    | ok p => simp [retryAux, hc, PredResult.exactlyOne]
    | badStructure =>
      by_cases h : attempt < attempts - 1
      · simpa [retryAux, hc, h] using ih (attempt + 1)
      · simp [retryAux, hc, h, PredResult.exactlyOne]
    | jsonError m =>
      by_cases h : attempt < attempts - 1
      · simpa [retryAux, hc, h] using ih (attempt + 1)
      · simp [retryAux, hc, h, PredResult.exactlyOne]
    | apiError m =>
      by_cases h : attempt < attempts - 1
      · simpa [retryAux, hc, h] using ih (attempt + 1)
      · simp [retryAux, hc, h, PredResult.exactlyOne]

lemma retryAux_step_ok (call : Nat → AttemptOutcome) (attempts delay itemId : Nat)
    (attempt remaining : Nat) (p : Prediction) (hc : call attempt = .ok p) :
    retryAux call attempts delay itemId attempt (remaining + 1) =
      (⟨itemId, some p, none⟩, [], 1) := by
  simp [retryAux, hc]

lemma retryAux_step_fail (call : Nat → AttemptOutcome) (attempts delay itemId : Nat)
    (attempt remaining : Nat) (h : (call attempt).isFail = true) :
    retryAux call attempts delay itemId attempt (remaining + 1) =
      if attempt < attempts - 1 then
        ((retryAux call attempts delay itemId (attempt + 1) remaining).1,
         delay * (attempt + 1) ::
           (retryAux call attempts delay itemId (attempt + 1) remaining).2.1,
         (retryAux call attempts delay itemId (attempt + 1) remaining).2.2 + 1)
      else (⟨itemId, none, some (errorMsg (call attempt))⟩, [], 1) := by
  cases hc : call attempt with
  | ok p => rw [hc] at h; simp [AttemptOutcome.isFail] at h
  | badStructure => simp [retryAux, hc]
  | jsonError m => simp [retryAux, hc]
  | apiError m => simp [retryAux, hc]

/-- Claim C4: With the attempt ceiling `RETRY_ATTEMPTS = 3`: a unit that fails
transiently on exactly the first `k < 3` attempts and then succeeds makes the
envelope return the success value; a unit that fails on every attempt makes it
return a tagged error result carrying the last underlying error (the message
of attempt 3's failure) — it is a total function, never raising; and the
trace of per-task suspensions is exactly `RETRY_DELAY_SECONDS * a` between
attempt `a` and attempt `a + 1` (1-based `a`, linear back-off). -/
theorem retry_envelope (call : Nat → AttemptOutcome) (p : Prediction) (k : Nat)
    (first_name last_name : String) (item_id : Nat)
    (hf : first_name ≠ "") (hl : last_name ≠ "") :
    (k < RETRY_ATTEMPTS → (∀ a, a < k → (call a).isFail = true) → call k = .ok p →
      get_person_prediction_async true call first_name last_name item_id =
        (⟨item_id, some p, none⟩,
         (List.range k).map (fun a => RETRY_DELAY_SECONDS * (a + 1)), k + 1)) ∧
    ((∀ a, a < RETRY_ATTEMPTS → (call a).isFail = true) →
      get_person_prediction_async true call first_name last_name item_id =
        (⟨item_id, none, some (errorMsg (call 2))⟩,
         [RETRY_DELAY_SECONDS * 1, RETRY_DELAY_SECONDS * 2], 3)) := by
  have hgp : get_person_prediction_async true call first_name last_name item_id =
      retryAux call RETRY_ATTEMPTS RETRY_DELAY_SECONDS item_id 0 RETRY_ATTEMPTS := by
    simp [get_person_prediction_async, hf, hl]
  constructor
  · intro hk hfail hsucc
    rw [hgp]
    show retryAux call RETRY_ATTEMPTS RETRY_DELAY_SECONDS item_id 0 3 = _
    have hk3 : k < 3 := hk
    interval_cases k
    · rw [retryAux_step_ok call _ _ _ 0 2 p hsucc]
      simp
    · rw [retryAux_step_fail call _ _ _ 0 2 (hfail 0 (by norm_num)),
        if_pos (by norm_num [RETRY_ATTEMPTS]),
        retryAux_step_ok call _ _ _ 1 1 p hsucc]
      simp [List.range_succ]
    · rw [retryAux_step_fail call _ _ _ 0 2 (hfail 0 (by norm_num)),
        if_pos (by norm_num [RETRY_ATTEMPTS]),
        retryAux_step_fail call _ _ _ 1 1 (hfail 1 (by norm_num)),
        if_pos (by norm_num [RETRY_ATTEMPTS]),
        retryAux_step_ok call _ _ _ 2 0 p hsucc]
      simp [List.range_succ]
  · intro hfail
    rw [hgp]
    show retryAux call RETRY_ATTEMPTS RETRY_DELAY_SECONDS item_id 0 3 = _
    rw [retryAux_step_fail call _ _ _ 0 2 (hfail 0 (by norm_num [RETRY_ATTEMPTS])),
      if_pos (by norm_num [RETRY_ATTEMPTS]),
      retryAux_step_fail call _ _ _ 1 1 (hfail 1 (by norm_num [RETRY_ATTEMPTS])),
      if_pos (by norm_num [RETRY_ATTEMPTS]),
      retryAux_step_fail call _ _ _ 2 0 (hfail 2 (by norm_num [RETRY_ATTEMPTS])),
      if_neg (by norm_num [RETRY_ATTEMPTS])]

/-- Witness for the retry-envelope theorem: an oracle failing twice then
succeeding returns the success value after sleeps of 5 s and 10 s and three
API calls; an always-failing oracle returns the tagged error of its last
attempt after the same sleeps. -/
theorem retry_envelope_witness :
    (get_person_prediction_async true
        (fun a => if a < 2 then .apiError "boom" else .ok ⟨some "MALE", some "isiZulu"⟩)
        "Thabo" "Mbeki" 7 =
      (⟨7, some ⟨some "MALE", some "isiZulu"⟩, none⟩, [5, 10], 3)) ∧
    (get_person_prediction_async true (fun _ => .apiError "down")
        "Thabo" "Mbeki" 7 =
      (⟨7, none, some (errorMsg (.apiError "down"))⟩, [5, 10], 3)) := by
  constructor
  · have h := (retry_envelope
      (fun a => if a < 2 then .apiError "boom" else .ok ⟨some "MALE", some "isiZulu"⟩)
      ⟨some "MALE", some "isiZulu"⟩ 2 "Thabo" "Mbeki" 7 (by decide) (by decide)).1
      (by decide) (by decide) (by decide)
    simpa [RETRY_DELAY_SECONDS] using h
  · have h := (retry_envelope (fun _ => .apiError "down")
      ⟨none, none⟩ 0 "Thabo" "Mbeki" 7 (by decide) (by decide)).2
      (fun a _ => by simp [AttemptOutcome.isFail])
    simpa [RETRY_DELAY_SECONDS] using h

/-- Claim C9: For every input, `get_person_prediction_async` returns (it is a
total function — it never raises) a dictionary whose `item_id` equals the
given id, holding exactly one of the `prediction` / `error` keys; and a falsy
(empty) first or last name yields an `error` outcome with zero outbound API
calls. -/
theorem prediction_result_shape (clientInit : Bool) (call : Nat → AttemptOutcome)
    (first_name last_name : String) (item_id : Nat) :
    (get_person_prediction_async clientInit call first_name last_name item_id).1.item_id
        = item_id ∧
    (get_person_prediction_async clientInit call first_name last_name item_id).1.exactlyOne ∧
    ((first_name = "" ∨ last_name = "") →
      (get_person_prediction_async clientInit call first_name last_name item_id).1.error.isSome
        ∧ (get_person_prediction_async clientInit call first_name last_name item_id).2.2 = 0) := by
  by_cases hc : clientInit
  · by_cases hn : first_name = "" || last_name = ""
    · refine ⟨?_, ?_, ?_⟩ <;>
        simp [get_person_prediction_async, hc, hn, PredResult.exactlyOne]
    · have h := retryAux_item_id_exactlyOne call RETRY_ATTEMPTS RETRY_DELAY_SECONDS
        item_id RETRY_ATTEMPTS 0
      refine ⟨?_, ?_, ?_⟩
      · simpa [get_person_prediction_async, hc, hn] using h.1
      · simpa [get_person_prediction_async, hc, hn] using h.2
      · intro habs
        rcases habs with h1 | h1 <;> simp [h1] at hn
  · refine ⟨?_, ?_, ?_⟩ <;>
      simp [get_person_prediction_async, hc, PredResult.exactlyOne]

/-- Witness for the result-shape theorem: empty surname, concrete oracle. -/
theorem prediction_result_shape_witness :
    (get_person_prediction_async true (fun _ => .badStructure) "Thabo" "" 7).1.item_id = 7 ∧
    (get_person_prediction_async true (fun _ => .badStructure) "Thabo" "" 7).1.error.isSome ∧
    (get_person_prediction_async true (fun _ => .badStructure) "Thabo" "" 7).2.2 = 0 := by
  have h := prediction_result_shape true (fun _ => .badStructure) "Thabo" "" 7
  exact ⟨h.1, (h.2.2 (Or.inr rfl)).1, (h.2.2 (Or.inr rfl)).2⟩

/-! ## Bounded-concurrency scheduler
(`enrich_and_update_master_items.py`, lines 327–333)

```
for i in range(0, len(tasks), API_CALL_CONCURRENCY):
    chunk = tasks[i:i+API_CALL_CONCURRENCY]
    api_results.extend(await asyncio.gather(*chunk))
    if len(tasks) > API_CALL_CONCURRENCY and i + API_CALL_CONCURRENCY < len(tasks):
        await asyncio.sleep(1)
```

The trace of the loop is the list of awaited groups, each with the flag of
whether a 1-second pause follows it.  A coroutine in Python only starts when
awaited, so during a group exactly that group's tasks are unsettled. -/

/-- The chunking loop from index `i` over the remaining task list `l`, with
`total = len(tasks)` and ceiling `C`.  (`max C 1` only totalizes the
function: for `C = 0` Python's `range` raises `ValueError`, and every theorem
below assumes `1 ≤ C`, under which `max C 1 = C`.) -/
def schedulerRun (C total : Nat) (i : Nat) (l : List α) : List (List α × Bool) :=
  match l with
  | [] => []
  | x :: xs =>
    ((x :: xs).take (max C 1), decide (C < total ∧ i + C < total)) ::
      schedulerRun C total (i + max C 1) ((x :: xs).drop (max C 1))
termination_by l.length
decreasing_by
  simp only [List.length_drop, List.length_cons]
  omega

lemma schedulerRun_nil (C total i : Nat) :
    schedulerRun C total i ([] : List α) = [] := by
  conv_lhs => unfold schedulerRun

lemma schedulerRun_cons (C total i : Nat) (x : α) (xs : List α) :
    schedulerRun C total i (x :: xs) =
      ((x :: xs).take (max C 1), decide (C < total ∧ i + C < total)) ::
        schedulerRun C total (i + max C 1) ((x :: xs).drop (max C 1)) := by
  conv_lhs => unfold schedulerRun

/-- The full trace of the concurrency loop on `tasks`. -/
def schedulerTrace (C : Nat) (tasks : List α) : List (List α × Bool) :=
  schedulerRun C tasks.length 0 tasks

/-- Model of `api_results`: each group is awaited with `asyncio.gather`, which returns
the per-task outcomes in submission order; `outcome` gives each task's own
terminal outcome (the wrapped prediction units are total — they never raise —
so no failure cancels a sibling). -/
def collectResults (C : Nat) (tasks : List α) (outcome : α → β) : List β :=
  ((schedulerTrace C tasks).map (fun g => g.1.map outcome)).flatten

lemma schedulerRun_ne_nil (C total i : Nat) (l : List α) (h : l ≠ []) :
    schedulerRun C total i l ≠ [] := by
  cases l with
  | nil => exact absurd rfl h
  | cons x xs => rw [schedulerRun_cons]; simp

lemma schedulerRun_join (C total : Nat) (_hC : 1 ≤ C) :
    ∀ n (l : List α) i, l.length = n →
      ((schedulerRun C total i l).map Prod.fst).flatten = l := by
  intro n
  induction n using Nat.strong_induction_on with
  | _ n ih =>
    intro l i hn
    cases l with
    | nil => simp [schedulerRun_nil]
    | cons x xs =>
      simp only [List.length_cons] at hn
      have hlt : ((x :: xs).drop (max C 1)).length < n := by
        simp only [List.length_drop, List.length_cons]
        omega
      rw [schedulerRun_cons]
      simp only [List.map_cons, List.flatten_cons]
      rw [ih _ hlt ((x :: xs).drop (max C 1)) (i + max C 1) rfl]
      exact List.take_append_drop _ _

lemma schedulerRun_chunk_le (C total : Nat) (hC : 1 ≤ C) :
    ∀ n (l : List α) i, l.length = n →
      ∀ g ∈ schedulerRun C total i l, g.1.length ≤ C ∧ g.1 ≠ [] := by
  intro n
  induction n using Nat.strong_induction_on with
  | _ n ih =>
    intro l i hn g hg
    cases l with
    | nil => simp [schedulerRun_nil] at hg
    | cons x xs =>
      simp only [List.length_cons] at hn
      have hmax : max C 1 = C := by omega
      have hlt : ((x :: xs).drop (max C 1)).length < n := by
        simp only [List.length_drop, List.length_cons]
        omega
      rw [schedulerRun_cons] at hg
      rcases List.mem_cons.mp hg with rfl | hg
      · constructor
        · simp only [hmax]
          exact List.length_take_le C (x :: xs)
        · simp only [ne_eq, hmax, List.take_eq_nil_iff]
          push_neg
          exact ⟨by omega, by simp⟩
      · exact ih _ hlt ((x :: xs).drop (max C 1)) (i + max C 1) rfl g hg

lemma schedulerRun_flags (C total : Nat) (hC : 1 ≤ C) :
    ∀ n (l : List α) i, l.length = n → i + l.length = total → l ≠ [] →
      (schedulerRun C total i l).map Prod.snd =
        List.replicate ((schedulerRun C total i l).length - 1) true ++ [false] := by
  intro n
  induction n using Nat.strong_induction_on with
  | _ n ih =>
    intro l i hn hinv hne
    have hmax : max C 1 = C := by omega
    cases l with
    | nil => exact absurd rfl hne
    | cons x xs =>
      simp only [List.length_cons] at hn hinv
      by_cases hlen : xs.length + 1 ≤ C
      · have hdrop : (x :: xs).drop (max C 1) = [] := by
          rw [List.drop_eq_nil_iff]
          simp only [List.length_cons]
          omega
        rw [schedulerRun_cons, hdrop, schedulerRun_nil]
        have hflag : ¬(C < total ∧ i + C < total) := by omega
        simp [hflag]
      · push_neg at hlen
        have hdroplen : ((x :: xs).drop (max C 1)).length = xs.length + 1 - C := by
          simp [hmax]
        have hlt : ((x :: xs).drop (max C 1)).length < n := by
          rw [hdroplen]; omega
        have hdropne : (x :: xs).drop (max C 1) ≠ [] := by
          intro hcon
          rw [hcon] at hdroplen
          simp only [List.length_nil] at hdroplen
          omega
        have hflag : (C < total ∧ i + C < total) := by omega
        have hinv' : i + max C 1 + ((x :: xs).drop (max C 1)).length = total := by
          rw [hdroplen, hmax]
          omega
        rw [schedulerRun_cons]
        simp only [List.map_cons, List.length_cons]
        rw [ih _ hlt ((x :: xs).drop (max C 1)) (i + max C 1) rfl hinv' hdropne]
        have htne := schedulerRun_ne_nil C total (i + max C 1)
          ((x :: xs).drop (max C 1)) hdropne
        obtain ⟨m, hm⟩ : ∃ m, (schedulerRun C total (i + max C 1)
            ((x :: xs).drop (max C 1))).length = m + 1 := by
          rcases hsr : schedulerRun C total (i + max C 1) ((x :: xs).drop (max C 1)) with
            _ | ⟨y, ys⟩
          · exact absurd hsr htne
          · exact ⟨ys.length, by simp⟩
        rw [hm]
        simp [hflag, List.replicate_succ]

/-- Claim C3: For every task list and ceiling `C ≥ 1`, the scheduler partitions
the tasks into sequential non-empty groups of size at most `C` (so never more
than `C` tasks are unsettled simultaneously — only the current group is in
flight while it is gathered); the concatenation of the groups is exactly the
submitted list, so every one of the `N` tasks reaches a terminal outcome;
a 1-second pause follows every group except the last (so pauses occur exactly
when more than one group is needed); and, since each task's outcome is a
function of that task alone, the collected results are the per-task outcomes
in submission order (one task's failure never cancels or fails a sibling). -/
theorem scheduler_bounded_concurrency {α β : Type} (C : Nat) (hC : 1 ≤ C)
    (tasks : List α) (outcome : α → β) :
    (∀ g ∈ schedulerTrace C tasks, g.1.length ≤ C ∧ g.1 ≠ []) ∧
    ((schedulerTrace C tasks).map Prod.fst).flatten = tasks ∧
    (tasks ≠ [] → (schedulerTrace C tasks).map Prod.snd =
      List.replicate ((schedulerTrace C tasks).length - 1) true ++ [false]) ∧
    collectResults C tasks outcome = tasks.map outcome := by
  refine ⟨?_, ?_, ?_, ?_⟩
  · exact schedulerRun_chunk_le C tasks.length hC tasks.length tasks 0 rfl
  · exact schedulerRun_join C tasks.length hC tasks.length tasks 0 rfl
  · intro hne
    exact schedulerRun_flags C tasks.length hC tasks.length tasks 0 rfl (by omega) hne
  · unfold collectResults
    have hjoin := schedulerRun_join C tasks.length hC tasks.length tasks 0 rfl
    calc ((schedulerTrace C tasks).map (fun g => g.1.map outcome)).flatten
        = (((schedulerTrace C tasks).map Prod.fst).map (List.map outcome)).flatten := by
          rw [List.map_map]; rfl
      _ = (((schedulerTrace C tasks).map Prod.fst).flatten).map outcome := by
          rw [List.map_flatten]
      _ = tasks.map outcome := by
          exact congrArg (List.map outcome) hjoin

/-- Witness for the scheduler theorem: five tasks with ceiling 2 give groups
`[1,2],[3,4],[5]`, pauses after the first two groups only, and results in
submission order. -/
theorem scheduler_bounded_concurrency_witness :
    (∀ g ∈ schedulerTrace 2 [1, 2, 3, 4, 5], g.1.length ≤ 2 ∧ g.1 ≠ []) ∧
    ((schedulerTrace 2 [1, 2, 3, 4, 5]).map Prod.fst).flatten = [1, 2, 3, 4, 5] ∧
    collectResults 2 [1, 2, 3, 4, 5] (fun n => n * 10) = [10, 20, 30, 40, 50] := by
  have h := scheduler_bounded_concurrency 2 (by decide) [1, 2, 3, 4, 5] (fun n => n * 10)
  exact ⟨h.1, h.2.1, h.2.2.2⟩

/-! ## Reconciler / upsert writers
(`enrich_and_update_master_items.py`, lines 144–210)

`dbo.Genders` rows are `(MasterItemId, Description)` pairs; `dbo.Languages`
rows also carry a `DateCreated` set by `GETDATE()` on insert.  The `MERGE`
statements update a matched row only when the descriptions differ, insert
source rows with no matching target row, and leave equal matches untouched;
`rowcount` is the number of updated plus inserted rows.  On a `pyodbc.Error`
the whole page's writes for that table are rolled back (`conn.rollback()`)
and the function returns 0. -/

def lookupDescr (t : List (Nat × String)) (k : Nat) : Option String :=
  (t.find? (fun r => r.1 == k)).map Prod.snd

/-- The action of the `MERGE` on one existing target row. -/
def updateRow (source : List (Nat × String)) (r : Nat × String) : Nat × String :=
  match lookupDescr source r.1 with
  | some nv => if r.2 ≠ nv then (r.1, nv) else r
  | none => r

/-- Existing rows after the `WHEN MATCHED AND <> THEN UPDATE` arm. -/
def updatedRows (target source : List (Nat × String)) : List (Nat × String) :=
  target.map (updateRow source)

/-- Rows added by the `WHEN NOT MATCHED BY TARGET THEN INSERT` arm. -/
def insertRows (target source : List (Nat × String)) : List (Nat × String) :=
  source.filter (fun s => (lookupDescr target s.1).isNone)

/-- Whether the `MERGE` updates target row `r`. -/
def rowUpdated (source : List (Nat × String)) (r : Nat × String) : Bool :=
  match lookupDescr source r.1 with
  | some nv => decide (r.2 ≠ nv)
  | none => false

/-- The `MERGE dbo.Genders AS target USING #TempGenders AS source` statement:
returns the new table contents and the statement's rowcount. -/
def mergeUpsert (target source : List (Nat × String)) :
    List (Nat × String) × Nat :=
  (updatedRows target source ++ insertRows target source,
   (target.filter (rowUpdated source)).length + (insertRows target source).length)

/-- A `dbo.Languages` row. -/
structure LangRow where
  mid : Nat
  descr : String
  dateCreated : Nat
deriving DecidableEq, Repr

def lookupLang (t : List LangRow) (k : Nat) : Option String :=
  (t.find? (fun r => r.mid == k)).map LangRow.descr

def updateLangRow (source : List (Nat × String)) (r : LangRow) : LangRow :=
  match lookupDescr source r.mid with
  | some nv => if r.descr ≠ nv then ⟨r.mid, nv, r.dateCreated⟩ else r
  | none => r

def langRowUpdated (source : List (Nat × String)) (r : LangRow) : Bool :=
  match lookupDescr source r.mid with
  | some nv => decide (r.descr ≠ nv)
  | none => false

/-- The `MERGE dbo.Languages` statement: same shape as the genders merge, but
inserted rows get `DateCreated = GETDATE()` (the parameter `now`); an update
does not touch `DateCreated`. -/
def mergeUpsertLanguages (now : Nat) (target : List LangRow)
    (source : List (Nat × String)) : List LangRow × Nat :=
  let inserts := (source.filter (fun s => (lookupLang target s.1).isNone)).map
    (fun s => (⟨s.1, s.2, now⟩ : LangRow))
  (target.map (updateLangRow source) ++ inserts,
   (target.filter (langRowUpdated source)).length + inserts.length)

/-- Model of `batch_upsert_genders(conn, gender_data_list)`: returns the (possibly
unchanged) table and the function's return value.  `connOk` models a live
connection, `writeOk = false` a `pyodbc.Error` during the statement, which
rolls the table's page writes back and returns 0. -/
def batch_upsert_genders (connOk writeOk : Bool) (table : List (Nat × String))
    (data : List (Nat × String)) : List (Nat × String) × Nat :=
  if !connOk || data.isEmpty then (table, 0)
  else if !writeOk then (table, 0)
  else mergeUpsert table data

/-- Model of `batch_upsert_languages(conn, language_data_list)`, same shape. -/
def batch_upsert_languages (connOk writeOk : Bool) (now : Nat)
    (table : List LangRow) (data : List (Nat × String)) : List LangRow × Nat :=
  if !connOk || data.isEmpty then (table, 0)
  else if !writeOk then (table, 0)
  else mergeUpsertLanguages now table data

lemma lookupDescr_cons (r : Nat × String) (t : List (Nat × String)) (k : Nat) :
    lookupDescr (r :: t) k = if r.1 = k then some r.2 else lookupDescr t k := by
  by_cases h : r.1 = k
  · rw [lookupDescr, List.find?_cons_of_pos _ (by simp [h]), if_pos h]
    rfl
  · rw [lookupDescr, List.find?_cons_of_neg _ (by simp [h]), if_neg h]
    rfl

lemma updateRow_fst (source : List (Nat × String)) (r : Nat × String) :
    (updateRow source r).1 = r.1 := by
  unfold updateRow
  cases lookupDescr source r.1 with
  | none => rfl
  | some nv => by_cases h : r.2 ≠ nv <;> simp [h]

lemma lookupDescr_updatedRows (target source : List (Nat × String)) (k : Nat) :
    lookupDescr (updatedRows target source) k =
      match lookupDescr target k, lookupDescr source k with
      | some _, some nv => some nv
      | some v, none => some v
      | none, _ => none := by
  induction target with
  | nil => simp [updatedRows, lookupDescr]
  | cons r t ih =>
    have hcons : updatedRows (r :: t) source =
        updateRow source r :: updatedRows t source := rfl
    rw [hcons, lookupDescr_cons, updateRow_fst, lookupDescr_cons]
    by_cases h : r.1 = k
    · subst h
      simp only [if_pos rfl]
      unfold updateRow
      cases hs : lookupDescr source r.1 with
      | none => simp
      | some nv =>
        by_cases hv : r.2 ≠ nv
        · simp [hv]
        · push_neg at hv
          simp [hv]
    · rw [if_neg h, if_neg h, ih]

lemma lookupDescr_insertRows (target source : List (Nat × String)) (k : Nat) :
    lookupDescr (insertRows target source) k =
      if (lookupDescr target k).isNone then lookupDescr source k else none := by
  induction source with
  | nil =>
    simp only [insertRows, List.filter_nil, lookupDescr, List.find?_nil, Option.map_none]
    cases lookupDescr target k <;> simp
  | cons s rest ih =>
    by_cases hsk : (lookupDescr target s.1).isNone
    · have : insertRows target (s :: rest) = s :: insertRows target rest := by
        simp [insertRows, hsk]
      rw [this, lookupDescr_cons]
      by_cases h : s.1 = k
      · subst h
        rw [if_pos rfl, lookupDescr_cons, if_pos rfl, if_pos hsk]
      · rw [if_neg h, ih, lookupDescr_cons, if_neg h]
    · have : insertRows target (s :: rest) = insertRows target rest := by
        simp only [insertRows, List.filter_cons]
        rw [if_neg (by simpa using hsk)]
      rw [this, ih, lookupDescr_cons]
      by_cases h : s.1 = k
      · subst h
        rw [if_pos rfl, if_neg (by simpa using hsk), if_neg (by simpa using hsk)]
      · rw [if_neg h]

lemma lookupDescr_append (t1 t2 : List (Nat × String)) (k : Nat) :
    lookupDescr (t1 ++ t2) k =
      match lookupDescr t1 k with
      | some v => some v
      | none => lookupDescr t2 k := by
  induction t1 with
  | nil => simp [lookupDescr]
  | cons r t ih =>
    rw [List.cons_append, lookupDescr_cons, lookupDescr_cons]
    by_cases h : r.1 = k
    · simp [h]
    · rw [if_neg h, if_neg h, ih]

lemma lookupDescr_eq_none_iff (t : List (Nat × String)) (k : Nat) :
    lookupDescr t k = none ↔ k ∉ t.map Prod.fst := by
  simp only [lookupDescr, Option.map_eq_none', List.find?_eq_none, beq_iff_eq,
    List.mem_map]
  aesop

lemma lookupDescr_of_mem (t : List (Nat × String)) (r : Nat × String)
    (ht : (t.map Prod.fst).Nodup) (hr : r ∈ t) : lookupDescr t r.1 = some r.2 := by
  induction t with
  | nil => simp at hr
  | cons a t ih =>
    simp only [List.map_cons, List.nodup_cons] at ht
    rcases List.mem_cons.mp hr with rfl | hr
    · simp [lookupDescr_cons]
    · have ha : a.1 ≠ r.1 := by
        intro he
        exact ht.1 (he ▸ List.mem_map_of_mem Prod.fst hr)
      rw [lookupDescr_cons, if_neg ha]
      exact ih ht.2 hr

lemma updatedRows_keys (target source : List (Nat × String)) :
    (updatedRows target source).map Prod.fst = target.map Prod.fst := by
  unfold updatedRows
  rw [List.map_map]
  exact List.map_congr_left (fun r _ => updateRow_fst source r)

/-- The lookup characterization of one application of the genders `MERGE`:
keys present in the source map to their incoming value (updated in place or
inserted), all other keys keep their stored value. -/
lemma mergeUpsert_lookup (target source : List (Nat × String)) (k : Nat) :
    lookupDescr (mergeUpsert target source).1 k =
      match lookupDescr source k with
      | some v => some v
      | none => lookupDescr target k := by
  show lookupDescr (updatedRows target source ++ insertRows target source) k = _
  rw [lookupDescr_append, lookupDescr_updatedRows, lookupDescr_insertRows]
  cases hT : lookupDescr target k with
  | some v => cases hS : lookupDescr source k <;> simp [hT]
  | none => cases hS : lookupDescr source k <;> simp [hT, hS]

lemma lookupDescr_isSome_of_mem (source : List (Nat × String)) (s : Nat × String)
    (hs : s ∈ source) : (lookupDescr source s.1).isSome := by
  unfold lookupDescr
  have h : (List.find? (fun r => r.1 == s.1) source).isSome := by
    rw [List.find?_isSome]
    exact ⟨s, hs, by simp⟩
  obtain ⟨r, hr⟩ := Option.isSome_iff_exists.mp h
  simp [hr]

/-- Re-applying the genders `MERGE` to a table that already agrees with the
source mapping touches nothing: no updates, no inserts, rowcount 0. -/
lemma mergeUpsert_second (target source : List (Nat × String))
    (ht : (target.map Prod.fst).Nodup)
    (hfix : ∀ k v, lookupDescr source k = some v → lookupDescr target k = some v) :
    mergeUpsert target source = (target, 0) := by
  have hrow : ∀ r ∈ target, updateRow source r = r := by
    intro r hr
    unfold updateRow
    cases hs : lookupDescr source r.1 with
    | none => rfl
    | some nv =>
      have h2 := hfix r.1 nv hs
      rw [lookupDescr_of_mem target r ht hr] at h2
      have : r.2 = nv := by injection h2
      simp [this]
  have hupd : updatedRows target source = target := by
    unfold updatedRows
    rw [List.map_congr_left hrow]
    exact List.map_id target
  have hins : insertRows target source = [] := by
    unfold insertRows
    rw [List.filter_eq_nil_iff]
    intro s hs
    obtain ⟨v, hv⟩ := Option.isSome_iff_exists.mp (lookupDescr_isSome_of_mem source s hs)
    rw [hfix s.1 v hv]
    simp
  have hflt : target.filter (rowUpdated source) = [] := by
    rw [List.filter_eq_nil_iff]
    intro r hr
    have := hrow r hr
    unfold rowUpdated
    cases hs : lookupDescr source r.1 with
    | none => simp
    | some nv =>
      have h2 := hfix r.1 nv hs
      rw [lookupDescr_of_mem target r ht hr] at h2
      have : r.2 = nv := by injection h2
      simp [this]
  unfold mergeUpsert
  rw [hupd, hins, hflt]
  simp

lemma mergeUpsert_keys (target source : List (Nat × String)) :
    (mergeUpsert target source).1.map Prod.fst =
      target.map Prod.fst ++ (insertRows target source).map Prod.fst := by
  show (updatedRows target source ++ insertRows target source).map Prod.fst = _
  rw [List.map_append, updatedRows_keys]

lemma mergeUpsert_nodup (target source : List (Nat × String))
    (ht : (target.map Prod.fst).Nodup) (hs : (source.map Prod.fst).Nodup) :
    ((mergeUpsert target source).1.map Prod.fst).Nodup := by
  rw [mergeUpsert_keys]
  refine List.Nodup.append ht ?_ ?_
  · exact List.Nodup.sublist (List.Sublist.map Prod.fst (List.filter_sublist source)) hs
  · intro a ha hb
    obtain ⟨s, hsmem, rfl⟩ := List.mem_map.mp hb
    have := List.mem_filter.mp hsmem
    have hnone : lookupDescr target s.1 = none :=
      Option.isNone_iff_eq_none.mp (by simpa using this.2)
    exact (lookupDescr_eq_none_iff target s.1).mp hnone ha

lemma lookupLang_cons (r : LangRow) (t : List LangRow) (k : Nat) :
    lookupLang (r :: t) k = if r.mid = k then some r.descr else lookupLang t k := by
  by_cases h : r.mid = k
  · rw [lookupLang, List.find?_cons_of_pos _ (by simp [h]), if_pos h]
    rfl
  · rw [lookupLang, List.find?_cons_of_neg _ (by simp [h]), if_neg h]
    rfl

lemma updateLangRow_mid (source : List (Nat × String)) (r : LangRow) :
    (updateLangRow source r).mid = r.mid := by
  unfold updateLangRow
  cases lookupDescr source r.mid with
  | none => rfl
  | some nv => by_cases h : r.descr ≠ nv <;> simp [h]

lemma lookupLang_updated (tlang : List LangRow) (source : List (Nat × String)) (k : Nat) :
    lookupLang (tlang.map (updateLangRow source)) k =
      match lookupLang tlang k, lookupDescr source k with
      | some _, some nv => some nv
      | some v, none => some v
      | none, _ => none := by
  induction tlang with
  | nil => simp [lookupLang]
  | cons r t ih =>
    rw [List.map_cons, lookupLang_cons, updateLangRow_mid, lookupLang_cons]
    by_cases h : r.mid = k
    · subst h
      simp only [if_pos rfl]
      unfold updateLangRow
      cases hs : lookupDescr source r.mid with
      | none => simp
      | some nv =>
        by_cases hv : r.descr ≠ nv
        · simp [hv]
        · push_neg at hv
          simp [hv]
    · rw [if_neg h, if_neg h, ih]

lemma lookupLang_inserts (tlang : List LangRow) (source : List (Nat × String))
    (now k : Nat) :
    lookupLang ((source.filter (fun s => (lookupLang tlang s.1).isNone)).map
      (fun s => (⟨s.1, s.2, now⟩ : LangRow))) k =
      if (lookupLang tlang k).isNone then lookupDescr source k else none := by
  induction source with
  | nil =>
    simp only [List.filter_nil, List.map_nil, lookupLang, lookupDescr, List.find?_nil,
      Option.map_none]
    cases lookupLang tlang k <;> simp [lookupLang]
  | cons s rest ih =>
    by_cases hsk : (lookupLang tlang s.1).isNone
    · have hstep : (s :: rest).filter (fun s => (lookupLang tlang s.1).isNone) =
          s :: rest.filter (fun s => (lookupLang tlang s.1).isNone) := by
        simp [hsk]
      rw [hstep, List.map_cons, lookupLang_cons]
      by_cases h : s.1 = k
      · subst h
        rw [if_pos rfl, lookupDescr_cons, if_pos rfl, if_pos hsk]
      · rw [if_neg h, ih, lookupDescr_cons, if_neg h]
    · have hstep : (s :: rest).filter (fun s => (lookupLang tlang s.1).isNone) =
          rest.filter (fun s => (lookupLang tlang s.1).isNone) := by
        simp only [List.filter_cons]
        rw [if_neg (by simpa using hsk)]
      rw [hstep, ih, lookupDescr_cons]
      by_cases h : s.1 = k
      · subst h
        rw [if_pos rfl, if_neg (by simpa using hsk), if_neg (by simpa using hsk)]
      · rw [if_neg h]

lemma lookupLang_append (t1 t2 : List LangRow) (k : Nat) :
    lookupLang (t1 ++ t2) k =
      match lookupLang t1 k with
      | some v => some v
      | none => lookupLang t2 k := by
  induction t1 with
  | nil => simp [lookupLang]
  | cons r t ih =>
    rw [List.cons_append, lookupLang_cons, lookupLang_cons]
    by_cases h : r.mid = k
    · simp [h]
    · rw [if_neg h, if_neg h, ih]

lemma lookupLang_of_mem (t : List LangRow) (r : LangRow)
    (ht : (t.map LangRow.mid).Nodup) (hr : r ∈ t) :
    lookupLang t r.mid = some r.descr := by
  induction t with
  | nil => simp at hr
  | cons a t ih =>
    simp only [List.map_cons, List.nodup_cons] at ht
    rcases List.mem_cons.mp hr with rfl | hr
    · simp [lookupLang_cons]
    · have ha : a.mid ≠ r.mid := by
        intro he
        exact ht.1 (he ▸ List.mem_map_of_mem LangRow.mid hr)
      rw [lookupLang_cons, if_neg ha]
      exact ih ht.2 hr

lemma lookupLang_isSome_of_mem (source : List (Nat × String)) (s : Nat × String)
    (hs : s ∈ source) : (lookupDescr source s.1).isSome :=
  lookupDescr_isSome_of_mem source s hs

/-- Lookup characterization of one application of the languages `MERGE`. -/
lemma mergeUpsertLanguages_lookup (now : Nat) (tlang : List LangRow)
    (source : List (Nat × String)) (k : Nat) :
    lookupLang (mergeUpsertLanguages now tlang source).1 k =
      match lookupDescr source k with
      | some v => some v
      | none => lookupLang tlang k := by
  show lookupLang (tlang.map (updateLangRow source) ++ _) k = _
  rw [lookupLang_append, lookupLang_updated, lookupLang_inserts]
  cases hT : lookupLang tlang k with
  | some v => cases hS : lookupDescr source k <;> simp [hT]
  | none => cases hS : lookupDescr source k <;> simp [hT, hS]

/-- Re-applying the languages `MERGE` to a table that already agrees with the
source mapping touches nothing — even under a different `GETDATE()` value,
since no row is inserted. -/
lemma mergeUpsertLanguages_second (now2 : Nat) (tlang : List LangRow)
    (source : List (Nat × String))
    (ht : (tlang.map LangRow.mid).Nodup)
    (hfix : ∀ k v, lookupDescr source k = some v → lookupLang tlang k = some v) :
    mergeUpsertLanguages now2 tlang source = (tlang, 0) := by
  have hrow : ∀ r ∈ tlang, updateLangRow source r = r := by
    intro r hr
    unfold updateLangRow
    cases hs : lookupDescr source r.mid with
    | none => rfl
    | some nv =>
      have h2 := hfix r.mid nv hs
      rw [lookupLang_of_mem tlang r ht hr] at h2
      have : r.descr = nv := by injection h2
      simp [this]
  have hupd : tlang.map (updateLangRow source) = tlang := by
    rw [List.map_congr_left hrow]
    exact List.map_id tlang
  have hins : source.filter (fun s => (lookupLang tlang s.1).isNone) = [] := by
    rw [List.filter_eq_nil_iff]
    intro s hs
    obtain ⟨v, hv⟩ := Option.isSome_iff_exists.mp (lookupDescr_isSome_of_mem source s hs)
    rw [hfix s.1 v hv]
    simp
  have hflt : tlang.filter (langRowUpdated source) = [] := by
    rw [List.filter_eq_nil_iff]
    intro r hr
    unfold langRowUpdated
    cases hs : lookupDescr source r.mid with
    | none => simp
    | some nv =>
      have h2 := hfix r.mid nv hs
      rw [lookupLang_of_mem tlang r ht hr] at h2
      have : r.descr = nv := by injection h2
      simp [this]
  unfold mergeUpsertLanguages
  rw [hupd, hins, hflt]
  simp

lemma mergeUpsertLanguages_nodup (now : Nat) (tlang : List LangRow)
    (source : List (Nat × String))
    (ht : (tlang.map LangRow.mid).Nodup) (hs : (source.map Prod.fst).Nodup) :
    ((mergeUpsertLanguages now tlang source).1.map LangRow.mid).Nodup := by
  show ((tlang.map (updateLangRow source) ++
    (source.filter (fun s => (lookupLang tlang s.1).isNone)).map
      (fun s => (⟨s.1, s.2, now⟩ : LangRow))).map LangRow.mid).Nodup
  rw [List.map_append]
  have hupd : (tlang.map (updateLangRow source)).map LangRow.mid =
      tlang.map LangRow.mid := by
    rw [List.map_map]
    exact List.map_congr_left (fun r _ => updateLangRow_mid source r)
  have hinskeys : ((source.filter (fun s => (lookupLang tlang s.1).isNone)).map
      (fun s => (⟨s.1, s.2, now⟩ : LangRow))).map LangRow.mid =
      (source.filter (fun s => (lookupLang tlang s.1).isNone)).map Prod.fst := by
    rw [List.map_map]
    rfl
  rw [hupd, hinskeys]
  refine List.Nodup.append ht ?_ ?_
  · exact List.Nodup.sublist (List.Sublist.map Prod.fst (List.filter_sublist source)) hs
  · intro a ha hb
    obtain ⟨s, hsmem, rfl⟩ := List.mem_map.mp hb
    have hmem := List.mem_filter.mp hsmem
    have hnone : lookupLang tlang s.1 = none :=
      Option.isNone_iff_eq_none.mp (by simpa using hmem.2)
    have : s.1 ∉ tlang.map LangRow.mid := by
      intro hcon
      obtain ⟨r, hrmem, hrk⟩ := List.mem_map.mp hcon
      have := lookupLang_of_mem tlang r ht hrmem
      rw [hrk] at this
      rw [this] at hnone
      exact Option.noConfusion hnone
    exact this ha

/-- Claim C2: For every mapping (source keys unique, as enforced by the temp
table's primary key; target keys unique): the merge maps every source key to
its incoming value — a target row with equal stored `Description` is left
untouched, a differing one is updated in place (existing key layout
preserved, new keys appended), an absent one inserted — at most one
destination row per `MasterItemId` ever exists, and re-applying the upsert
(`batch_upsert_genders` / `batch_upsert_languages`) with the unchanged
mapping returns rowcount 0 and leaves the table identical (for languages even
under a different `GETDATE()`). -/
theorem upsert_idempotent (target source : List (Nat × String))
    (now now2 : Nat) (tlang : List LangRow)
    (ht : (target.map Prod.fst).Nodup)
    (hs : (source.map Prod.fst).Nodup)
    (htl : (tlang.map LangRow.mid).Nodup) :
    (∀ k, lookupDescr (mergeUpsert target source).1 k =
      match lookupDescr source k with
      | some v => some v
      | none => lookupDescr target k) ∧
    ((mergeUpsert target source).1.map Prod.fst).Nodup ∧
    ((mergeUpsert target source).1.map Prod.fst =
      target.map Prod.fst ++ (insertRows target source).map Prod.fst) ∧
    batch_upsert_genders true true (mergeUpsert target source).1 source =
      ((mergeUpsert target source).1, 0) ∧
    ((mergeUpsertLanguages now tlang source).1.map LangRow.mid).Nodup ∧
    batch_upsert_languages true true now2
        (mergeUpsertLanguages now tlang source).1 source =
      ((mergeUpsertLanguages now tlang source).1, 0) := by
  have hlook := mergeUpsert_lookup target source
  have ht1 := mergeUpsert_nodup target source ht hs
  have hfix : ∀ k v, lookupDescr source k = some v →
      lookupDescr (mergeUpsert target source).1 k = some v := by
    intro k v hv
    rw [hlook k, hv]
  have hsecond := mergeUpsert_second (mergeUpsert target source).1 source ht1 hfix
  have htl1 := mergeUpsertLanguages_nodup now tlang source htl hs
  have hfixL : ∀ k v, lookupDescr source k = some v →
      lookupLang (mergeUpsertLanguages now tlang source).1 k = some v := by
    intro k v hv
    rw [mergeUpsertLanguages_lookup now tlang source k, hv]
  have hsecondL := mergeUpsertLanguages_second now2
    (mergeUpsertLanguages now tlang source).1 source htl1 hfixL
  refine ⟨hlook, ht1, mergeUpsert_keys target source, ?_, htl1, ?_⟩
  · unfold batch_upsert_genders
    by_cases hd : source.isEmpty
    · rw [hd]
      cases hni : source with
      | nil => simp [hsecond]
      | cons a l => rw [hni] at hd; simp at hd
    · simp only [hd, Bool.false_or, Bool.not_false, Bool.not_true, if_false]
      exact hsecond
  · unfold batch_upsert_languages
    by_cases hd : source.isEmpty
    · rw [hd]
      cases hni : source with
      | nil => simp [hsecondL]
      | cons a l => rw [hni] at hd; simp at hd
    · simp only [hd, Bool.false_or, Bool.not_false, Bool.not_true, if_false]
      exact hsecondL

/-- Witness for the upsert-idempotence theorem at a concrete table and
mapping (key 2 differs, key 3 absent, key 1 untouched). -/
theorem upsert_idempotent_witness :
    batch_upsert_genders true true
        (mergeUpsert [(1, "MALE"), (2, "FEMALE")] [(2, "MALE"), (3, "FEMALE")]).1
        [(2, "MALE"), (3, "FEMALE")] =
      ((mergeUpsert [(1, "MALE"), (2, "FEMALE")] [(2, "MALE"), (3, "FEMALE")]).1, 0) ∧
    batch_upsert_languages true true 30
        (mergeUpsertLanguages 20 [⟨1, "English", 10⟩] [(2, "isiZulu"), (3, "isiXhosa")]).1
        [(2, "isiZulu"), (3, "isiXhosa")] =
      ((mergeUpsertLanguages 20 [⟨1, "English", 10⟩]
          [(2, "isiZulu"), (3, "isiXhosa")]).1, 0) := by
  have h1 := upsert_idempotent [(1, "MALE"), (2, "FEMALE")] [(2, "MALE"), (3, "FEMALE")]
    20 30 [⟨1, "English", 10⟩] (by decide) (by decide) (by decide)
  have h2 := upsert_idempotent [(1, "MALE"), (2, "FEMALE")] [(2, "isiZulu"), (3, "isiXhosa")]
    20 30 [⟨1, "English", 10⟩] (by decide) (by decide) (by decide)
  exact ⟨h1.2.2.2.1, h2.2.2.2.2.2⟩

/-! ## Birth-date correction pass
(`src/BirthDay Backfill/correct_birthdates.py`, `TSQL_CORRECT_RECORDS`)

The T-SQL updates every `dbo.BirthDates` row with `BirthDate > @ThresholdDate`
to `DATEADD(year, -100, BirthDate)` inside a transaction, captures
`(Id, MasterItemId, OldBirthDate, NewBirthDate)` of every changed row via the
`OUTPUT` clause, rolls the transaction back when `@DryRun = 1` and commits it
otherwise, and finally selects the captured change set
`ORDER BY OldBirthDate ASC, Id ASC`. -/

structure Date where
  year : Nat
  month : Nat
  day : Nat
deriving DecidableEq, Repr

/-- SQL `DATE` strict comparison (calendar order). -/
def Date.isBefore (a b : Date) : Prop :=
  a.year < b.year ∨ (a.year = b.year ∧
    (a.month < b.month ∨ (a.month = b.month ∧ a.day < b.day)))

instance : DecidableRel Date.isBefore := fun a b => by
  unfold Date.isBefore; infer_instance

/-- Model of `DATEADD(year, -100, d)`: subtract 100 from the year, clamping the day to
the target month's length (SQL Server clamps Feb 29 to Feb 28 in a non-leap
target year). -/
def dateAddYearsNeg100 (d : Date) : Date :=
  ⟨d.year - 100, d.month, min d.day (daysInMonth (d.year - 100) d.month)⟩

/-- A `dbo.BirthDates` row (`BirthDate` is nullable until backfilled). -/
structure BDRow where
  id : Nat
  masterItemId : Nat
  birthDate : Option Date
deriving DecidableEq, Repr

/-- A row of the `@ChangedRecords` capture table. -/
structure ChangedRec where
  id : Nat
  masterItemId : Nat
  oldBirthDate : Date
  newBirthDate : Date
deriving DecidableEq, Repr

/-- The `WHERE BirthDate > @ThresholdDate` predicate (a `NULL` date never
qualifies). -/
def thresholdExceeded (threshold : Date) (r : BDRow) : Bool :=
  match r.birthDate with
  | some d => decide (threshold.isBefore d)
  | none => false

/-- The final `ORDER BY OldBirthDate ASC, Id ASC` ordering. -/
def changedLE (a b : ChangedRec) : Prop :=
  a.oldBirthDate.isBefore b.oldBirthDate ∨
    (a.oldBirthDate = b.oldBirthDate ∧ a.id ≤ b.id)

instance : DecidableRel changedLE := fun a b => by
  unfold changedLE; infer_instance

instance : IsTotal ChangedRec changedLE := ⟨by
  rintro ⟨ia, ma, ⟨ya, moa, da⟩, na⟩ ⟨ib, mb, ⟨yb, mob, db⟩, nb⟩
  simp only [changedLE, Date.isBefore, Date.mk.injEq]
  omega⟩

instance : IsTrans ChangedRec changedLE := ⟨by
  rintro ⟨ia, ma, ⟨ya, moa, da⟩, na⟩ ⟨ib, mb, ⟨yb, mob, db⟩, nb⟩ ⟨ic, mc, ⟨yc, moc, dc⟩, nc⟩
  simp only [changedLE, Date.isBefore, Date.mk.injEq]
  omega⟩

/-- The `@ChangedRecords` content: one capture per qualifying row, in table
order (before the final `ORDER BY`). -/
def changedRecords (db : List BDRow) (threshold : Date) : List ChangedRec :=
  db.filterMap (fun r =>
    match r.birthDate with
    | some d =>
      if threshold.isBefore d then
        some ⟨r.id, r.masterItemId, d, dateAddYearsNeg100 d⟩
      else none
    | none => none)

/-- Model of `TSQL_CORRECT_RECORDS` executed against table state `db` with the given
threshold and `@DryRun` flag: returns the table state after the transaction
(commit or rollback) and the exported change set, sorted by
`OldBirthDate ASC, Id ASC`. -/
def TSQL_CORRECT_RECORDS (db : List BDRow) (threshold : Date) (dryRun : Bool) :
    List BDRow × List ChangedRec :=
  let updatedDb := db.map (fun r =>
    if thresholdExceeded threshold r then
      { r with birthDate := r.birthDate.map dateAddYearsNeg100 } else r)
  (if dryRun then db else updatedDb,
   List.insertionSort changedLE (changedRecords db threshold))

/-- Claim C8: The live correction pass subtracts exactly 100 years from the
`BirthDate` of every row strictly greater than the threshold (year reduced by
100, month preserved, day clamped to the target month), changes no other row
(and neither inserts nor deletes rows), captures
`(Id, MasterItemId, old, new)` for exactly the changed rows, and emits the
change-set export ordered ascending by old date then by `Id`. -/
theorem correction_pass_live (db : List BDRow) (threshold : Date) :
    (∀ (i : Nat) (r : BDRow), db[i]? = some r → thresholdExceeded threshold r = false →
      (TSQL_CORRECT_RECORDS db threshold false).1[i]? = some r) ∧
    (∀ (i : Nat) (r : BDRow) (d : Date),
      db[i]? = some r → r.birthDate = some d → threshold.isBefore d →
      (TSQL_CORRECT_RECORDS db threshold false).1[i]? =
        some { r with birthDate := some (dateAddYearsNeg100 d) } ∧
      (dateAddYearsNeg100 d).year = d.year - 100 ∧
      (dateAddYearsNeg100 d).month = d.month) ∧
    (TSQL_CORRECT_RECORDS db threshold false).1.length = db.length ∧
    (TSQL_CORRECT_RECORDS db threshold false).2.Perm (changedRecords db threshold) ∧
    List.Sorted changedLE (TSQL_CORRECT_RECORDS db threshold false).2 := by
  refine ⟨?_, ?_, ?_, ?_, ?_⟩
  · intro i r hi hr
    show (db.map _)[i]? = some r
    rw [List.getElem?_map, hi]
    simp [hr]
  · intro i r d hi hd hlt
    refine ⟨?_, rfl, rfl⟩
    show (db.map _)[i]? = some _
    rw [List.getElem?_map, hi]
    have hex : thresholdExceeded threshold r = true := by
      unfold thresholdExceeded
      rw [hd]
      simpa using hlt
    simp [hex, hd]
  · show (db.map _).length = db.length
    exact List.length_map db _
  · exact List.perm_insertionSort changedLE (changedRecords db threshold)
  · exact List.sorted_insertionSort changedLE (changedRecords db threshold)

/-- Witness for the live correction pass: threshold 2008-02-23, a stored date
2009-06-01 becomes 1909-06-01 in place, a stored date 1990-01-01 is
untouched. -/
theorem correction_pass_live_witness :
    ((TSQL_CORRECT_RECORDS [⟨1, 10, some ⟨2009, 6, 1⟩⟩, ⟨2, 11, some ⟨1990, 1, 1⟩⟩]
        ⟨2008, 2, 23⟩ false).1[0]? = some ⟨1, 10, some ⟨1909, 6, 1⟩⟩) ∧
    ((TSQL_CORRECT_RECORDS [⟨1, 10, some ⟨2009, 6, 1⟩⟩, ⟨2, 11, some ⟨1990, 1, 1⟩⟩]
        ⟨2008, 2, 23⟩ false).1[1]? = some ⟨2, 11, some ⟨1990, 1, 1⟩⟩) := by
  have h := correction_pass_live
    [⟨1, 10, some ⟨2009, 6, 1⟩⟩, ⟨2, 11, some ⟨1990, 1, 1⟩⟩] ⟨2008, 2, 23⟩
  constructor
  · have hb := h.2.1 0 ⟨1, 10, some ⟨2009, 6, 1⟩⟩ ⟨2009, 6, 1⟩ rfl rfl (by decide)
    rw [hb.1]
    decide
  · exact h.1 1 ⟨2, 11, some ⟨1990, 1, 1⟩⟩ rfl (by decide)

/-- Claim C7: With the dry-run flag set, the transaction is rolled back so every
`dbo.BirthDates` row holds its original value after the run, while the
exported change set is identical to the live run's export and still contains
every row that would have been changed. -/
theorem correction_pass_dry_run (db : List BDRow) (threshold : Date) :
    (TSQL_CORRECT_RECORDS db threshold true).1 = db ∧
    (TSQL_CORRECT_RECORDS db threshold true).2 =
      (TSQL_CORRECT_RECORDS db threshold false).2 ∧
    (∀ r ∈ db, ∀ d, r.birthDate = some d → threshold.isBefore d →
      (⟨r.id, r.masterItemId, d, dateAddYearsNeg100 d⟩ : ChangedRec) ∈
        (TSQL_CORRECT_RECORDS db threshold true).2) := by
  refine ⟨rfl, rfl, ?_⟩
  intro r hr d hd hlt
  show _ ∈ List.insertionSort changedLE (changedRecords db threshold)
  rw [List.mem_insertionSort]
  refine List.mem_filterMap.mpr ⟨r, hr, ?_⟩
  rw [hd]
  simp [hlt]

/-- Witness for the dry-run theorem at the spec's example: threshold
2008-02-23, a row with stored date 2009-06-01 appears in the export with new
value 1909-06-01, yet the stored row is unchanged after the run. -/
theorem correction_pass_dry_run_witness :
    (TSQL_CORRECT_RECORDS [⟨1, 42, some ⟨2009, 6, 1⟩⟩] ⟨2008, 2, 23⟩ true).1 =
      [⟨1, 42, some ⟨2009, 6, 1⟩⟩] ∧
    (⟨1, 42, ⟨2009, 6, 1⟩, ⟨1909, 6, 1⟩⟩ : ChangedRec) ∈
      (TSQL_CORRECT_RECORDS [⟨1, 42, some ⟨2009, 6, 1⟩⟩] ⟨2008, 2, 23⟩ true).2 := by
  have h := correction_pass_dry_run [⟨1, 42, some ⟨2009, 6, 1⟩⟩] ⟨2008, 2, 23⟩
  refine ⟨h.1, ?_⟩
  have hm := h.2.2 ⟨1, 42, some ⟨2009, 6, 1⟩⟩ (by decide) ⟨2009, 6, 1⟩ rfl (by decide)
  simpa using hm

/-! ## Pipeline driver — page fetch, scheduling, reconciliation, watermark
(`process_master_items_in_batches_async`, lines 213–403)

One iteration of the `while True:` loop.  The database is the triple of the
`MasterItems`, `Genders` and `Languages` tables.  The per-row API outcome is
the oracle `predict` (the scheduler and retry envelope are verified
separately; here only each row's terminal outcome matters).  `genderWriteOk`
/ `langWriteOk` model whether each table's batch upsert hits a
`pyodbc.Error`. -/

/-- Python `str.strip()` / T-SQL `LTRIM(RTRIM(·))`: remove surrounding
whitespace. -/
def strStrip (s : String) : String :=
  String.mk (((s.data.dropWhile Char.isWhitespace).reverse.dropWhile
    Char.isWhitespace).reverse)

/-- Model of `x IS NOT NULL AND LTRIM(RTRIM(x)) <> ''`. -/
def nonblank : Option String → Bool
  | none => false
  | some s => strStrip s != ""

structure MasterItem where
  id : Nat
  fullName : Option String
  surname : Option String
deriving DecidableEq, Repr

structure EnrichDB where
  masterItems : List MasterItem
  genders : List (Nat × String)
  languages : List LangRow
deriving DecidableEq, Repr

/-- Model of `ORDER BY mi.Id ASC`. -/
def miLE (a b : MasterItem) : Prop := a.id ≤ b.id

instance : DecidableRel miLE := fun a b => by unfold miLE; infer_instance

instance : IsTotal MasterItem miLE := ⟨fun a b => Nat.le_total a.id b.id⟩

instance : IsTrans MasterItem miLE := ⟨fun _ _ _ => Nat.le_trans⟩

/-- The fetch query's `WHERE` clause: missing gender or language attribute,
`Id` strictly beyond the watermark `K`, non-blank `FullName` and `Surname`. -/
def eligibleRow (db : EnrichDB) (K : Nat) (mi : MasterItem) : Bool :=
  ((lookupDescr db.genders mi.id).isNone || (lookupLang db.languages mi.id).isNone) &&
    decide (K < mi.id) && nonblank mi.fullName && nonblank mi.surname

/-- The `SELECT TOP (?) ... WHERE ... ORDER BY mi.Id ASC` page fetch:
the first `n` eligible rows in ascending `Id` order. -/
def fetchPage (db : EnrichDB) (K n : Nat) : List MasterItem :=
  ((List.insertionSort miLE db.masterItems).filter (eligibleRow db K)).take n

def DB_BATCH_SIZE : Nat := 10000

structure DriverState where
  lastProcessedId : Nat
  cumulativeFetched : Nat
  db : EnrichDB
  totalGendersUpserted : Nat
  totalLanguagesUpserted : Nat
deriving DecidableEq, Repr

/-- How the `while True:` loop leaves an iteration. -/
inductive LoopExit
  | emptyPage      -- line 297: empty fetch, the `break` at line 299
  | budgetReached  -- lines 240–243
  | safeguard      -- lines 251–253
deriving DecidableEq, Repr

inductive IterResult
  | nextIter (s : DriverState)
  | exit (s : DriverState) (e : LoopExit)
deriving DecidableEq, Repr

/-- The body of one loop iteration after the records-to-fetch computation:
fetch the page, break on empty, build tasks (skipping rows whose stripped
names are empty), run the predictions, split the successes into the two
upsert lists, attempt both batch upserts, and set
`last_processed_id = rows_in_current_batch[-1].Id` (lines 318 and 368 — in
both branches, regardless of upsert success). -/
def driverCore (toFetch : Nat)
    (predict : Nat → Option (Option String × Option String))
    (genderWriteOk langWriteOk : Bool) (now : Nat)
    (s : DriverState) : IterResult :=
  if toFetch = 0 then .exit s .safeguard
  else
    let page := fetchPage s.db s.lastProcessedId toFetch
    match page.getLast? with
    | none => .exit s .emptyPage
    | some lastRow =>
      let cum := s.cumulativeFetched + page.length
      let tasks := page.filterMap (fun mi =>
        let pf := match mi.fullName with | some v => strStrip v | none => ""
        let ps := match mi.surname with | some v => strStrip v | none => ""
        if pf = "" || ps = "" then none else some mi.id)
      if tasks.isEmpty then
        .nextIter { s with lastProcessedId := lastRow.id, cumulativeFetched := cum }
      else
        let results := tasks.map (fun i => (i, predict i))
        let genders_to_upsert := results.filterMap (fun r =>
          match r.2 with
          | some (some g, _) => some (r.1, g)
          | _ => none)
        let languages_to_upsert := results.filterMap (fun r =>
          match r.2 with
          | some (_, some l) => some (r.1, l)
          | _ => none)
        let gres :=
          if genders_to_upsert.isEmpty then (s.db.genders, 0)
          else batch_upsert_genders true genderWriteOk s.db.genders genders_to_upsert
        let lres :=
          if languages_to_upsert.isEmpty then (s.db.languages, 0)
          else batch_upsert_languages true langWriteOk now s.db.languages
            languages_to_upsert
        .nextIter
          { lastProcessedId := lastRow.id,
            cumulativeFetched := cum,
            db := { s.db with genders := gres.1, languages := lres.1 },
            totalGendersUpserted := s.totalGendersUpserted + gres.2,
            totalLanguagesUpserted := s.totalLanguagesUpserted + lres.2 }

/-- One iteration of the driver loop, including the
`MAX_TOTAL_RECORDS_TO_PROCESS` budget logic (lines 238–254):
`records_to_fetch_this_batch = min(DB_BATCH_SIZE, remaining_to_hit_max)`
when a budget is configured. -/
def driverIter (batchSize : Nat) (budget : Option Nat)
    (predict : Nat → Option (Option String × Option String))
    (genderWriteOk langWriteOk : Bool) (now : Nat)
    (s : DriverState) : IterResult :=
  match budget with
  | some B =>
    if s.cumulativeFetched ≥ B then .exit s .budgetReached
    else driverCore (min batchSize (B - s.cumulativeFetched)) predict
      genderWriteOk langWriteOk now s
  | none => driverCore batchSize predict genderWriteOk langWriteOk now s

/-- Model of `driverCore` leaves the loop only on a zero fetch quota or an empty page,
and then leaves the state untouched: both reconciliation branches continue
the loop. -/
lemma driverCore_exit (toFetch now : Nat)
    (predict : Nat → Option (Option String × Option String))
    (gOk lOk : Bool) (s s' : DriverState) (e : LoopExit)
    (h : driverCore toFetch predict gOk lOk now s = .exit s' e) :
    s' = s ∧ ((toFetch = 0 ∧ e = .safeguard) ∨
      (fetchPage s.db s.lastProcessedId toFetch = [] ∧ e = .emptyPage)) := by
  unfold driverCore at h
  by_cases h0 : toFetch = 0
  · rw [if_pos h0] at h
    cases h
    exact ⟨rfl, Or.inl ⟨h0, rfl⟩⟩
  · rw [if_neg h0] at h
    simp only [] at h
    cases hlast : (fetchPage s.db s.lastProcessedId toFetch).getLast? with
    | none =>
      rw [hlast] at h
      cases h
      refine ⟨rfl, Or.inr ⟨?_, rfl⟩⟩
      cases hpage : fetchPage s.db s.lastProcessedId toFetch with
      | nil => rfl
      | cons a l =>
        rw [hpage] at hlast
        simp at hlast
    | some lastRow =>
      rw [hlast] at h
      simp only [] at h
      split at h <;> exact IterResult.noConfusion h

/-- When `driverCore` continues the loop it has set the watermark to the last
fetched row's `Id` — whether or not the upserts succeeded — never touches
`MasterItems`, and a failed languages write leaves the languages table
exactly as it was. -/
lemma driverCore_nextIter (toFetch now : Nat)
    (predict : Nat → Option (Option String × Option String))
    (gOk : Bool) (s s' : DriverState)
    (h : driverCore toFetch predict gOk false now s = .nextIter s') :
    (∃ lastRow, (fetchPage s.db s.lastProcessedId toFetch).getLast? = some lastRow ∧
      s'.lastProcessedId = lastRow.id) ∧
    s'.db.languages = s.db.languages ∧
    s'.db.masterItems = s.db.masterItems := by
  unfold driverCore at h
  by_cases h0 : toFetch = 0
  · rw [if_pos h0] at h
    exact IterResult.noConfusion h
  · rw [if_neg h0] at h
    simp only [] at h
    cases hlast : (fetchPage s.db s.lastProcessedId toFetch).getLast? with
    | none =>
      rw [hlast] at h
      exact IterResult.noConfusion h
    | some lastRow =>
      rw [hlast] at h
      simp only [] at h
      split at h
      · cases h
        exact ⟨⟨lastRow, rfl, rfl⟩, rfl, rfl⟩
      · cases h
        refine ⟨⟨lastRow, rfl, rfl⟩, ?_, rfl⟩
        show (if _ then (s.db.languages, 0)
          else batch_upsert_languages true false now s.db.languages _).1 = s.db.languages
        split
        · rfl
        · unfold batch_upsert_languages
          split
          · rfl
          · rfl

lemma fetchPage_mem (db : EnrichDB) (K n : Nat) (mi : MasterItem)
    (h : mi ∈ fetchPage db K n) : eligibleRow db K mi = true := by
  unfold fetchPage at h
  have h2 := List.mem_of_mem_take h
  exact (List.mem_filter.mp h2).2

lemma eligibleRow_spec (db : EnrichDB) (K : Nat) (mi : MasterItem)
    (h : eligibleRow db K mi = true) :
    ((lookupDescr db.genders mi.id).isNone = true ∨
      (lookupLang db.languages mi.id).isNone = true) ∧
    K < mi.id ∧ nonblank mi.fullName = true ∧ nonblank mi.surname = true := by
  unfold eligibleRow at h
  simp only [Bool.and_eq_true, Bool.or_eq_true, decide_eq_true_eq] at h
  exact ⟨h.1.1.1, h.1.1.2, h.1.2, h.2⟩

/-- Claim C5: For every watermark `K`, page size `P ≥ 1` and optional remaining
budget: the fetch is bounded by `min(P, B)` rows (and the driver's quota for a
batch under a budget is exactly `min(P, B - consumed)`); every returned row
has `Id > K`, is missing the Gender attribute or the Language attribute, and
has non-blank `FullName` and `Surname`; the page is ascending by `Id`; and
with no budget configured, the loop exits only on — and always on — an empty
page, leaving the state untouched (the empty page is the sole termination
signal). -/
theorem page_fetcher_contract (db : EnrichDB) (K P B now : Nat)
    (predict : Nat → Option (Option String × Option String))
    (gOk lOk : Bool) (s : DriverState) (hP : 1 ≤ P) :
    (fetchPage db K (min P B)).length ≤ min P B ∧
    (s.cumulativeFetched < B →
      driverIter P (some B) predict gOk lOk now s =
        driverCore (min P (B - s.cumulativeFetched)) predict gOk lOk now s) ∧
    (∀ mi ∈ fetchPage db K (min P B),
      K < mi.id ∧
      ((lookupDescr db.genders mi.id).isNone = true ∨
        (lookupLang db.languages mi.id).isNone = true) ∧
      nonblank mi.fullName = true ∧ nonblank mi.surname = true) ∧
    List.Sorted miLE (fetchPage db K (min P B)) ∧
    (∀ s' e, driverIter P none predict gOk lOk now s = .exit s' e →
      e = .emptyPage ∧ s' = s ∧ fetchPage s.db s.lastProcessedId P = []) := by
  refine ⟨?_, ?_, ?_, ?_, ?_⟩
  · exact List.length_take_le _ _
  · intro hlt
    simp [driverIter, Nat.not_le.mpr hlt]
  · intro mi hmem
    obtain ⟨hattr, hK, hfn, hsn⟩ :=
      eligibleRow_spec db K mi (fetchPage_mem db K (min P B) mi hmem)
    exact ⟨hK, hattr, hfn, hsn⟩
  · have hsorted := List.sorted_insertionSort miLE db.masterItems
    have hfil : List.Sorted miLE
        ((List.insertionSort miLE db.masterItems).filter (eligibleRow db K)) :=
      List.Pairwise.filter _ hsorted
    exact List.Pairwise.sublist (List.take_sublist _ _) hfil
  · intro s' e h
    have hcore : driverCore P predict gOk lOk now s = .exit s' e := h
    obtain ⟨rfl, hcases⟩ := driverCore_exit P now predict gOk lOk s s' e hcore
    rcases hcases with ⟨h0, _⟩ | ⟨hpage, rfl⟩
    · omega
    · exact ⟨rfl, rfl, hpage⟩

/-- Witness for the page-fetcher contract: a two-row database where only row
2 is eligible (row 1 already has both attributes); from watermark 0 with page
size 5 and remaining budget 3, exactly row 2 is returned, and with an
exhausted-by-watermark database the no-budget loop exits with the empty
page. -/
theorem page_fetcher_contract_witness :
    (fetchPage ⟨[⟨1, some "A", some "B"⟩, ⟨2, some "C", some "D"⟩],
        [(1, "MALE")], [⟨1, "English", 0⟩]⟩ 0 (min 5 3)).length ≤ min 5 3 ∧
    (∀ mi ∈ fetchPage (⟨[⟨1, some "A", some "B"⟩, ⟨2, some "C", some "D"⟩],
        [(1, "MALE")], [⟨1, "English", 0⟩]⟩ : EnrichDB) 0 (min 5 3),
      0 < mi.id) ∧
    fetchPage ⟨[⟨1, some "A", some "B"⟩, ⟨2, some "C", some "D"⟩],
        [(1, "MALE")], [⟨1, "English", 0⟩]⟩ 0 (min 5 3) = [⟨2, some "C", some "D"⟩] := by
  have h := page_fetcher_contract
    ⟨[⟨1, some "A", some "B"⟩, ⟨2, some "C", some "D"⟩],
      [(1, "MALE")], [⟨1, "English", 0⟩]⟩ 0 5 3 0 (fun _ => none) true true
    ⟨0, 0, ⟨[], [], []⟩, 0, 0⟩ (by decide)
  exact ⟨h.1, fun mi hmi => (h.2.2.1 mi hmi).1, by decide⟩

/-! ### The watermark-vs-failed-write behaviour (claim C1)

`batch_upsert_genders` / `batch_upsert_languages` catch `pyodbc.Error`
internally, roll back and return 0 — they do not raise.  The driver therefore
reaches line 368 (`last_processed_id = rows_in_current_batch[-1].Id`)
unconditionally, advancing the watermark even when a table's page write was
rolled back; and the two tables commit in separate transactions, so a failed
languages write does not undo an already committed genders write. -/

/-- A one-row database: row 1 has names but neither attribute. -/
def exDB : EnrichDB := ⟨[⟨1, some "A", some "B"⟩], [], []⟩

def exState : DriverState := ⟨0, 0, exDB, 0, 0⟩

/-- The state after one iteration in which the languages upsert hit a
`pyodbc.Error`: genders committed, languages rolled back, watermark at 1. -/
def exDBAfter : EnrichDB := ⟨[⟨1, some "A", some "B"⟩], [(1, "MALE")], []⟩

def exStateAfter : DriverState := ⟨1, 1, exDBAfter, 1, 0⟩

/-- Oracle: the one prediction succeeds with gender and language. -/
def exPredict : Nat → Option (Option String × Option String) :=
  fun _ => some (some "MALE", some "isiZulu")

/-- Counterexample to claim C1. One iteration on `exDB` with a failing languages
write: the languages reconciliation of the page fails (zero rows written,
table still empty), the genders write of the same page is already committed,
and yet the watermark advances to 1 — past the failed page — so the row is
no longer fetched from the new watermark (it is re-selected only by a scan
restarting below its `Id`, e.g. from 0).  This refutes, at this input, both
"a write failure aborts the whole page's writes" and "the watermark is not
advanced past a page whose reconciliation failed". -/
theorem watermark_claim_counterexample :
    driverIter 10 none exPredict true false 0 exState = .nextIter exStateAfter ∧
    exStateAfter.db.languages = [] ∧
    exStateAfter.db.genders = [(1, "MALE")] ∧
    exStateAfter.lastProcessedId = 1 ∧
    fetchPage exStateAfter.db exStateAfter.lastProcessedId 10 = [] ∧
    eligibleRow exStateAfter.db 0 ⟨1, some "A", some "B"⟩ = true := by
  refine ⟨by decide, rfl, rfl, rfl, by decide, by decide⟩

/-- Claim C1 as amended. With no budget configured and a failing languages
write, whenever the driver continues the loop it has advanced the watermark
to the last fetched row's `Id` regardless of reconciliation success; the
failed table's page writes are rolled back atomically (the languages table is
exactly unchanged), and every fetched row that was missing its language
attribute is still missing it — hence re-eligible, but only for a scan
starting below its `Id` (here from watermark 0, as after a process restart),
not from the advanced watermark. -/
theorem watermark_advances_despite_failed_write
    (batchSize now : Nat) (predict : Nat → Option (Option String × Option String))
    (gOk : Bool) (s s' : DriverState)
    (h : driverIter batchSize none predict gOk false now s = .nextIter s') :
    (∃ lastRow, (fetchPage s.db s.lastProcessedId batchSize).getLast? = some lastRow ∧
      s'.lastProcessedId = lastRow.id) ∧
    s'.db.languages = s.db.languages ∧
    (∀ mi ∈ fetchPage s.db s.lastProcessedId batchSize,
      (lookupLang s.db.languages mi.id).isNone = true →
        eligibleRow s'.db 0 mi = true) := by
  have hcore : driverCore batchSize predict gOk false now s = .nextIter s' := h
  obtain ⟨hlastex, hlang, _⟩ := driverCore_nextIter batchSize now predict gOk s s' hcore
  refine ⟨hlastex, hlang, ?_⟩
  intro mi hmem hmiss
  obtain ⟨_, hK, hfn, hsn⟩ :=
    eligibleRow_spec s.db s.lastProcessedId mi
      (fetchPage_mem s.db s.lastProcessedId batchSize mi hmem)
  unfold eligibleRow
  rw [hlang]
  simp [hmiss, hfn, hsn]
  omega

/-- Witness for the amended watermark theorem at the counterexample input. -/
theorem watermark_advances_despite_failed_write_witness :
    (∃ lastRow, (fetchPage exState.db exState.lastProcessedId 10).getLast? =
        some lastRow ∧ exStateAfter.lastProcessedId = lastRow.id) ∧
    exStateAfter.db.languages = exState.db.languages ∧
    (∀ mi ∈ fetchPage exState.db exState.lastProcessedId 10,
      (lookupLang exState.db.languages mi.id).isNone = true →
        eligibleRow exStateAfter.db 0 mi = true) :=
  watermark_advances_despite_failed_write 10 0 exPredict true exState exStateAfter
    (by decide)

end SaltRoute
